import Mathlib

/-!
Shallow embedding of `audiomate/processing/parallel.py`.

The module distributes feature extraction over worker processes:
`ParallelProcessor.process_corpus` validates the worker count, slices the
ordered utterance-identifier list into one contiguous range per worker,
spawns the workers, collects one record per utterance from a shared result
queue into a `FeatureContainer`, stamps frame/hop/sampling-rate metadata,
closes the container and joins the workers.
`worker_process_utterances_task` is the per-worker loop: it resolves each
utterance, validates the sampling-rate invariant when no forced rate `sr`
is given, invokes the opaque processor and emits `(idx, data)` records.

Machine-level conventions of the embedding: the corpus dictionary is an
ordered association list, queue nondeterminism is an explicit `arrival`
list parameter, exceptions are `Except` values, and the side effects on
the container and the processes are recorded as an event trace.
-/

set_option autoImplicit false

namespace Audiomate

/-- An utterance of the corpus: its identifier `idx`, the identifier of its
underlying audio file (`utterance.file.idx` in the source), and its
intrinsic sampling rate. -/
structure Utterance where
  idx : String
  fileIdx : String
  samplingRate : Int
deriving DecidableEq

/-- The corpus collaborator, reduced to what `process_corpus` reads:
`corpus.utterances`, an insertion-ordered dictionary from identifier to
utterance, modelled as an ordered association list. -/
abbrev Corpus := List (String × Utterance)

deriving instance DecidableEq for Except

/-- Dictionary access `corpus.utterances[uid]`. -/
def lookupUtt : Corpus → String → Option Utterance
  | [], _ => none
  | (k, u) :: rest, uid => if k = uid then some u else lookupUtt rest uid

/-- The opaque processor collaborator: `process_utterance` turns one
utterance (with frame size, hop size, the `sr` argument and the corpus)
into a feature array of type `D`; `frame_transform` maps the configured
frame and hop size to the values stored as container metadata. -/
structure Processor (D : Type) where
  process_utterance : Utterance → Nat → Nat → Option Int → Corpus → D
  frame_transform : Nat → Nat → Nat × Nat

/-- One `processor.process_utterance` invocation performed by a worker:
the identifier of the utterance put on the queue with the result, the
literal `sr` argument the call received, and the produced data. -/
structure WorkerCall (D : Type) where
  uttIdx : String
  srArg : Option Int
  data : D
deriving DecidableEq

/-- Errors a worker can raise: the `ValueError` for a sampling-rate
mismatch (carrying `utterance.file.idx` of the offending utterance), and
the `KeyError` of a failed dictionary access. -/
inductive WorkerError
  | inconsistentRate (fileIdx : String)
  | keyError (uid : String)
deriving DecidableEq

/-- The loop of `worker_process_utterances_task` over the worker's range of
utterance identifiers. The second explicit argument threads the mutable
local `sampling_rate` of the source, initially `-1`. For each identifier:
resolve the utterance, check the rate invariant when `sr` is `none` (an
error exactly when the threaded rate is positive and differs), record the
threaded rate as the utterance's rate (`sr = none` case), call the
processor with the literal `sr`, and emit the record. -/
def processUtterances {D : Type} (p : Processor D) (corpus : Corpus)
    (frame_size hop_size : Nat) (sr : Option Int) :
    List String → Int → Except WorkerError (List (WorkerCall D))
  | [], _ => .ok []
  | uid :: rest, samplingRate =>
    match lookupUtt corpus uid with
    | none => .error (.keyError uid)
    | some utterance =>
      if sr = none ∧ 0 < samplingRate ∧ samplingRate ≠ utterance.samplingRate then
        .error (.inconsistentRate utterance.fileIdx)
      else
        let newRate := if sr = none then utterance.samplingRate else samplingRate
        (processUtterances p corpus frame_size hop_size sr rest newRate).map
          (fun calls =>
            WorkerCall.mk utterance.idx sr
              (p.process_utterance utterance frame_size hop_size sr corpus) :: calls)

/-- Function executed on every process in parallel corpus processing
(`worker_process_utterances_task`): the loop started with
`sampling_rate = -1`. -/
def worker_process_utterances_task {D : Type} (p : Processor D)
    (utterances : List String) (corpus : Corpus)
    (frame_size hop_size : Nat) (sr : Option Int) :
    Except WorkerError (List (WorkerCall D)) :=
  processUtterances p corpus frame_size hop_size sr utterances (-1)

/-- The slice of utterance identifiers assigned to worker `i`:
`utterance_ids[utt_start_index:utt_end_index]` where
`utts_per_worker = int(num_utts / num_workers)`,
`utt_start_index = i * utts_per_worker`,
`utt_end_index = (i + 1) * utts_per_worker`, overridden to `num_utts` for
the last worker. -/
def workerSlice (utterance_ids : List String) (num_workers i : Nat) : List String :=
  let num_utts := utterance_ids.length
  let utts_per_worker := num_utts / num_workers
  let utt_start_index := i * utts_per_worker
  let utt_end_index :=
    if i = num_workers - 1 then num_utts else (i + 1) * utts_per_worker
  (utterance_ids.take utt_end_index).drop utt_start_index

/-- Errors `process_corpus` can surface: the `ValueError` for fewer than
two workers, the collector blocking forever when fewer records than
utterances ever arrive, the `IndexError` of `utterance_ids[0]` on an empty
list, and the `KeyError` of a failed dictionary access. -/
inductive RunError
  | configurationError
  | incompleteResult
  | indexError
  | keyError (uid : String)
deriving DecidableEq

/-- The output feature container: the keyed entries written with `set` and
the three scalar metadata fields, `none` until assigned. -/
structure FeatureContainer (D : Type) where
  entries : List (String × D)
  frame_size : Option Nat
  hop_size : Option Nat
  sampling_rate : Option Int
deriving DecidableEq

/-- A freshly opened, empty container. -/
def emptyContainer (D : Type) : FeatureContainer D :=
  FeatureContainer.mk [] none none none

/-- `feat_container.set(utt_idx, feats)`: a keyed write, replacing any
previous entry under the same key. -/
def containerSet {D : Type} (c : FeatureContainer D) (k : String) (d : D) :
    FeatureContainer D :=
  FeatureContainer.mk ((k, d) :: c.entries.filter (fun e => e.1 ≠ k))
    c.frame_size c.hop_size c.sampling_rate

/-- Observable events of one `process_corpus` run, in program order:
starting worker `i` on its identifier slice, opening the container,
writing one record, assigning the metadata, closing the container, and
joining worker `i`. -/
inductive Event (D : Type)
  | spawn (i : Nat) (utts : List String)
  | openC
  | write (uid : String) (d : D)
  | setMeta (frame_size hop_size : Nat) (sampling_rate : Int)
  | closeC
  | join (i : Nat)
deriving DecidableEq

/-- Python truthiness of `sr or sampling_rate`: the fallback when `sr` is
`None` or `0`, else `sr`. -/
def pyOr (sr : Option Int) (fallback : Int) : Int :=
  match sr with
  | none => fallback
  | some s => if s = 0 then fallback else s

/-- `sampling_rate = sr`, and when `sr` is `None`,
`corpus.utterances[utterance_ids[0]].sampling_rate`: an `IndexError` when
the identifier list is empty. -/
def deriveSamplingRate (corpus : Corpus) (sr : Option Int) : Except RunError Int :=
  match sr with
  | some s => .ok s
  | none =>
    match (corpus.map Prod.fst).head? with
    | none => .error .indexError
    | some uid =>
      match lookupUtt corpus uid with
      | none => .error (.keyError uid)
      | some u => .ok u.samplingRate

/-- `ParallelProcessor.process_corpus`: validate `num_workers`, spawn each
worker on its identifier slice, open the container, pop `num_utts` records
from the result queue writing each into the container as it arrives, stamp
the metadata, close the container, join the workers and return it. The
sequence of records the queue yields is the explicit `arrival` parameter;
fewer available records than utterances models the collector blocking
forever on `result_queue.get()`. The result is the event trace of the run
together with the outcome. -/
def process_corpus {D : Type} (p : Processor D) (corpus : Corpus)
    (num_workers frame_size hop_size : Nat) (sr : Option Int)
    (arrival : List (String × D)) :
    List (Event D) × Except RunError (FeatureContainer D) :=
  if num_workers < 2 then
    ([], .error .configurationError)
  else
    let utterance_ids := corpus.map Prod.fst
    let num_utts := utterance_ids.length
    let spawns := (List.range num_workers).map
      (fun i => Event.spawn i (workerSlice utterance_ids num_workers i))
    if arrival.length < num_utts then
      (spawns ++ [Event.openC] ++ arrival.map (fun r => Event.write r.1 r.2),
       .error .incompleteResult)
    else
      let collected := arrival.take num_utts
      let writes := collected.map (fun r => Event.write r.1 r.2)
      let c1 := collected.foldl (fun c r => containerSet c r.1 r.2) (emptyContainer D)
      match deriveSamplingRate corpus sr with
      | .error e => (spawns ++ [Event.openC] ++ writes, .error e)
      | .ok sampling_rate =>
        let tf := p.frame_transform frame_size hop_size
        (spawns ++ [Event.openC] ++ writes
          ++ [Event.setMeta tf.1 tf.2 (pyOr sr sampling_rate), Event.closeC]
          ++ (List.range num_workers).map (fun i => Event.join i),
         .ok (FeatureContainer.mk c1.entries (some tf.1) (some tf.2)
              (some (pyOr sr sampling_rate))))

/-- The records put on the result queue by a sequence of workers, one per
identifier slice, when every worker succeeds; the first worker error
otherwise. -/
def workerOutputsOn {D : Type} (p : Processor D) (corpus : Corpus)
    (frame_size hop_size : Nat) (sr : Option Int) :
    List (List String) → Except WorkerError (List (String × D))
  | [] => .ok []
  | utts :: rest =>
    match worker_process_utterances_task p utts corpus frame_size hop_size sr,
        workerOutputsOn p corpus frame_size hop_size sr rest with
    | .ok calls, .ok out => .ok (calls.map (fun c => (c.uttIdx, c.data)) ++ out)
    | .error e, _ => .error e
    | .ok _, .error e => .error e

/-- The records put on the result queue by the `num_workers` workers
spawned by `process_corpus`, each on its slice, when all succeed. -/
def workerOutputsAll {D : Type} (p : Processor D) (corpus : Corpus)
    (num_workers frame_size hop_size : Nat) (sr : Option Int) :
    Except WorkerError (List (String × D)) :=
  workerOutputsOn p corpus frame_size hop_size sr
    ((List.range num_workers).map (workerSlice (corpus.map Prod.fst) num_workers))

/-- A concrete processor over `Nat` feature data for concrete evaluations:
the feature array is `0`, the frame transform shifts both sizes. -/
def procTest : Processor Nat :=
  Processor.mk (fun _ _ _ _ _ => 0) (fun f h => (f + 1, h + 2))

/-- A three-utterance corpus with one uniform sampling rate. -/
def corpusT : Corpus :=
  [("a", Utterance.mk "a" "fa" 16000),
   ("b", Utterance.mk "b" "fb" 16000),
   ("c", Utterance.mk "c" "fc" 16000)]

/-- A two-utterance corpus with two different positive sampling rates. -/
def corpusMixed : Corpus :=
  [("a", Utterance.mk "a" "fa" 8000),
   ("b", Utterance.mk "b" "fb" 44100)]

/-- A two-utterance corpus whose first utterance reports sampling rate `0`
and whose second reports `5`. -/
def corpusZero : Corpus :=
  [("a", Utterance.mk "a" "fa" 0),
   ("b", Utterance.mk "b" "fb" 5)]

/-- Ten utterance identifiers. -/
def ids10 : List String :=
  ["u0", "u1", "u2", "u3", "u4", "u5", "u6", "u7", "u8", "u9"]

/-! Partition lemmas. -/

/-- Concatenating `m` consecutive blocks of width `k` yields the first
`m * k` elements. -/
lemma join_take_slices (l : List String) (k : Nat) :
    ∀ m, ((List.range m).map (fun i => (l.drop (i * k)).take k)).flatten = l.take (m * k)
  | 0 => by simp
  | m + 1 => by
    rw [List.range_succ, List.map_append, List.flatten_append, join_take_slices l k m]
    simp [Nat.succ_mul, List.take_add]

/-- Every worker slice but the last is the block of width
`utts_per_worker` starting at `i * utts_per_worker`. -/
lemma workerSlice_eq_mid (ids : List String) (W i : Nat) (hi : i < W - 1) :
    workerSlice ids W i
      = (ids.drop (i * (ids.length / W))).take (ids.length / W) := by
  have hne : i ≠ W - 1 := Nat.ne_of_lt hi
  unfold workerSlice
  simp only [if_neg hne]
  rw [List.drop_take]
  congr 1
  rw [Nat.succ_mul, Nat.add_sub_cancel_left]

/-- The last worker slice runs from its start index to the end of the
identifier list. -/
lemma workerSlice_eq_last (ids : List String) (W : Nat) :
    workerSlice ids W (W - 1) = ids.drop ((W - 1) * (ids.length / W)) := by
  unfold workerSlice
  simp [List.take_length]

/-- The worker slices concatenate back to the whole identifier list. -/
lemma slices_join (ids : List String) (W : Nat) (hW : 2 ≤ W) :
    ((List.range W).map (workerSlice ids W)).flatten = ids := by
  obtain ⟨V, rfl⟩ : ∃ V, W = V + 1 := ⟨W - 1, by omega⟩
  rw [List.range_succ, List.map_append, List.flatten_append]
  have hmid : ∀ i ∈ List.range V,
      workerSlice ids (V + 1) i
        = (ids.drop (i * (ids.length / (V + 1)))).take (ids.length / (V + 1)) := by
    intro i hi
    exact workerSlice_eq_mid ids (V + 1) i (by simpa using hi)
  rw [List.map_congr_left hmid, join_take_slices]
  have hlast : workerSlice ids (V + 1) V = ids.drop (V * (ids.length / (V + 1))) := by
    have := workerSlice_eq_last ids (V + 1)
    simpa using this
  simp [hlast, List.take_append_drop]

/-! Characterization of a successful run. -/

/-- A successful `process_corpus` run determines the whole result: the
worker count passed validation, enough records arrived, the sampling rate
derivation succeeded, and both the event trace and the returned container
have their canonical shapes. -/
lemma process_corpus_ok_eq {D : Type} {p : Processor D} {corpus : Corpus}
    {W frame_size hop_size : Nat} {sr : Option Int}
    {arrival : List (String × D)} {c : FeatureContainer D}
    (hok : (process_corpus p corpus W frame_size hop_size sr arrival).2 = .ok c) :
    2 ≤ W ∧ corpus.length ≤ arrival.length ∧
    ∃ s, deriveSamplingRate corpus sr = .ok s ∧
      process_corpus p corpus W frame_size hop_size sr arrival =
        ((List.range W).map
            (fun i => Event.spawn i (workerSlice (corpus.map Prod.fst) W i))
          ++ [Event.openC]
          ++ (arrival.take corpus.length).map (fun r => Event.write r.1 r.2)
          ++ [Event.setMeta (p.frame_transform frame_size hop_size).1
                (p.frame_transform frame_size hop_size).2 (pyOr sr s),
              Event.closeC]
          ++ (List.range W).map (fun i => Event.join i),
         .ok (FeatureContainer.mk
            ((arrival.take corpus.length).foldl
              (fun c r => containerSet c r.1 r.2) (emptyContainer D)).entries
            (some (p.frame_transform frame_size hop_size).1)
            (some (p.frame_transform frame_size hop_size).2)
            (some (pyOr sr s)))) := by
  unfold process_corpus at hok ⊢
  simp only [List.length_map] at hok ⊢
  by_cases h2 : W < 2
  · simp [h2] at hok
  · simp only [if_neg h2] at hok ⊢
    by_cases h3 : arrival.length < corpus.length
    · simp [h3] at hok
    · simp only [if_neg h3] at hok ⊢
      rcases hd : deriveSamplingRate corpus sr with e | s
      · rw [hd] at hok
        simp at hok
      · exact ⟨by omega, by omega, s, rfl, rfl⟩

/-! Worker lemmas. -/

/-- A successful dictionary lookup returns an entry of the corpus under the
looked-up key. -/
lemma lookupUtt_mem : ∀ {corpus : Corpus} {uid : String} {u : Utterance},
    lookupUtt corpus uid = some u → (uid, u) ∈ corpus
  | [], _, _, h => by simp [lookupUtt] at h
  | (k, v) :: rest, uid, u, h => by
    rw [lookupUtt] at h
    by_cases hk : k = uid
    · subst hk
      rw [if_pos rfl] at h
      cases h
      exact List.mem_cons_self _ _
    · rw [if_neg hk] at h
      exact List.mem_cons_of_mem _ (lookupUtt_mem h)

/-- Unfolding of the worker loop on a non-empty range. -/
lemma processUtterances_cons {D : Type} (p : Processor D) (corpus : Corpus)
    (frame_size hop_size : Nat) (sr : Option Int) (uid : String)
    (rest : List String) (samplingRate : Int) :
    processUtterances p corpus frame_size hop_size sr (uid :: rest) samplingRate =
      match lookupUtt corpus uid with
      | none => .error (.keyError uid)
      | some utterance =>
        if sr = none ∧ 0 < samplingRate ∧ samplingRate ≠ utterance.samplingRate then
          .error (.inconsistentRate utterance.fileIdx)
        else
          (processUtterances p corpus frame_size hop_size sr rest
            (if sr = none then utterance.samplingRate else samplingRate)).map
            (fun calls =>
              WorkerCall.mk utterance.idx sr
                (p.process_utterance utterance frame_size hop_size sr corpus) :: calls) := by
  rw [processUtterances]

/-- Unfolding of the worker loop on a non-empty range whose head resolves. -/
lemma processUtterances_cons_some {D : Type} {p : Processor D} {corpus : Corpus}
    {frame_size hop_size : Nat} {sr : Option Int} {uid : String}
    {rest : List String} {samplingRate : Int} {u : Utterance}
    (hlk : lookupUtt corpus uid = some u) :
    processUtterances p corpus frame_size hop_size sr (uid :: rest) samplingRate =
      if sr = none ∧ 0 < samplingRate ∧ samplingRate ≠ u.samplingRate then
        .error (.inconsistentRate u.fileIdx)
      else
        (processUtterances p corpus frame_size hop_size sr rest
          (if sr = none then u.samplingRate else samplingRate)).map
          (fun calls =>
            WorkerCall.mk u.idx sr
              (p.process_utterance u frame_size hop_size sr corpus) :: calls) := by
  rw [processUtterances_cons, hlk]

/-- A worker that succeeds on its range emits exactly one record per
identifier of the range, keyed by it, in range order. -/
lemma processUtterances_ok_map_idx {D : Type} {p : Processor D} {corpus : Corpus}
    {frame_size hop_size : Nat} {sr : Option Int}
    (hfaith : ∀ pr ∈ corpus, (pr.2).idx = pr.1) :
    ∀ (utts : List String) (acc : Int) (calls : List (WorkerCall D)),
      processUtterances p corpus frame_size hop_size sr utts acc = .ok calls →
      calls.map (fun c => c.uttIdx) = utts
  | [], acc, calls, hok => by
    rw [processUtterances] at hok
    cases hok
    rfl
  | uid :: rest, acc, calls, hok => by
    rcases hlk : lookupUtt corpus uid with _ | u
    · rw [processUtterances_cons, hlk] at hok
      cases hok
    · rw [processUtterances_cons_some hlk] at hok
      by_cases hc : sr = none ∧ 0 < acc ∧ acc ≠ u.samplingRate
      · rw [if_pos hc] at hok
        cases hok
      · rw [if_neg hc] at hok
        rcases hrec : processUtterances p corpus frame_size hop_size sr rest
            (if sr = none then u.samplingRate else acc) with e | l
        · rw [hrec] at hok
          simp [Except.map] at hok
        · rw [hrec] at hok
          simp only [Except.map] at hok
          cases hok
          have hidx : u.idx = uid := hfaith (uid, u) (lookupUtt_mem hlk)
          simp only [List.map_cons, hidx]
          rw [processUtterances_ok_map_idx hfaith rest _ l hrec]

/-- When every worker of a slice sequence succeeds, the records on the
queue are keyed exactly by the concatenation of the slices, in order. -/
lemma workerOutputsOn_map_fst {D : Type} {p : Processor D} {corpus : Corpus}
    {frame_size hop_size : Nat} {sr : Option Int}
    (hfaith : ∀ pr ∈ corpus, (pr.2).idx = pr.1) :
    ∀ (slices : List (List String)) (outs : List (String × D)),
      workerOutputsOn p corpus frame_size hop_size sr slices = .ok outs →
      outs.map Prod.fst = slices.flatten
  | [], outs, hok => by
    rw [workerOutputsOn] at hok
    cases hok
    rfl
  | utts :: rest, outs, hok => by
    rw [workerOutputsOn] at hok
    rcases h1 : worker_process_utterances_task p utts corpus frame_size hop_size sr
        with e | calls
    · rw [h1] at hok
      cases hok
    · rcases h2 : workerOutputsOn p corpus frame_size hop_size sr rest with e | out
      · rw [h1, h2] at hok
        cases hok
      · rw [h1, h2] at hok
        cases hok
        have hcalls : calls.map (fun c => c.uttIdx) = utts :=
          processUtterances_ok_map_idx hfaith utts (-1) calls h1
        simp only [List.flatten_cons, List.map_append, List.map_map]
        rw [workerOutputsOn_map_fst hfaith rest out h2, ← hcalls]
        rfl

/-- With no forced rate, a worker whose items all report the intrinsic rate
`r` processes its whole range without error, for any threaded rate that is
non-positive or already `r`. -/
lemma processUtterances_uniform_ok {D : Type} {p : Processor D} {corpus : Corpus}
    {frame_size hop_size : Nat} {r : Int} :
    ∀ (utts : List String) (acc : Int),
      (∀ uid ∈ utts, (lookupUtt corpus uid).map Utterance.samplingRate = some r) →
      (acc ≤ 0 ∨ acc = r) →
      ∃ calls, processUtterances p corpus frame_size hop_size none utts acc = .ok calls
  | [], _, _, _ => ⟨[], by rw [processUtterances]⟩
  | uid :: rest, acc, hall, hacc => by
    have h0 := hall uid (List.mem_cons_self _ _)
    rcases hlk : lookupUtt corpus uid with _ | u
    · rw [hlk] at h0
      cases h0
    · rw [hlk] at h0
      simp only [Option.map_some', Option.some.injEq] at h0
      have hnot : ¬((none : Option Int) = none ∧ 0 < acc ∧ acc ≠ u.samplingRate) := by
        rintro ⟨-, hpos, hdiff⟩
        rcases hacc with hle | hEq
        · omega
        · exact hdiff (hEq.trans h0.symm)
      obtain ⟨calls, hc⟩ := processUtterances_uniform_ok rest u.samplingRate
        (fun v hv => hall v (List.mem_cons_of_mem _ hv)) (Or.inr h0)
      rw [processUtterances_cons_some hlk, if_neg hnot, if_pos rfl, hc]
      exact ⟨_, rfl⟩

/-- With no forced rate, a worker whose threaded rate equals a positive `r`,
about to process a block of rate-`r` items followed by an item of a
different rate, fails with the inconsistent-rate error naming that item's
file. -/
lemma processUtterances_diverge {D : Type} {p : Processor D} {corpus : Corpus}
    {frame_size hop_size : Nat} {r : Int} {bad : String} {ubad : Utterance}
    (hbadlk : lookupUtt corpus bad = some ubad) (hr : 0 < r)
    (hne : ubad.samplingRate ≠ r) :
    ∀ (pre : List String) (rest : List String) (acc : Int),
      (∀ uid ∈ pre, (lookupUtt corpus uid).map Utterance.samplingRate = some r) →
      acc = r →
      processUtterances p corpus frame_size hop_size none (pre ++ bad :: rest) acc
        = .error (.inconsistentRate ubad.fileIdx)
  | [], rest, acc, _, hacc => by
    rw [hacc, List.nil_append, processUtterances_cons_some hbadlk, if_pos]
    exact ⟨rfl, hr, fun hh => hne hh.symm⟩
  | uid :: pre, rest, acc, hall, hacc => by
    rw [hacc]
    have h0 := hall uid (List.mem_cons_self _ _)
    rcases hlk : lookupUtt corpus uid with _ | u
    · rw [hlk] at h0
      cases h0
    · rw [hlk] at h0
      simp only [Option.map_some', Option.some.injEq] at h0
      have hnot : ¬((none : Option Int) = none ∧ 0 < r ∧ r ≠ u.samplingRate) := by
        rintro ⟨-, -, hdiff⟩
        exact hdiff h0.symm
      rw [List.cons_append, processUtterances_cons_some hlk, if_neg hnot,
        if_pos rfl, h0,
        processUtterances_diverge hbadlk hr hne pre rest r
          (fun v hv => hall v (List.mem_cons_of_mem _ hv)) rfl]
      rfl

/-- Every `process_utterance` invocation a worker performs receives the
literal `sr` parameter as its sampling-rate argument. -/
lemma processUtterances_srArg {D : Type} {p : Processor D} {corpus : Corpus}
    {frame_size hop_size : Nat} {sr : Option Int} :
    ∀ (utts : List String) (acc : Int) (calls : List (WorkerCall D)),
      processUtterances p corpus frame_size hop_size sr utts acc = .ok calls →
      ∀ c ∈ calls, c.srArg = sr
  | [], acc, calls, hok => by
    rw [processUtterances] at hok
    cases hok
    intro c hc
    cases hc
  | uid :: rest, acc, calls, hok => by
    rcases hlk : lookupUtt corpus uid with _ | u
    · rw [processUtterances_cons, hlk] at hok
      cases hok
    · rw [processUtterances_cons_some hlk] at hok
      by_cases hc : sr = none ∧ 0 < acc ∧ acc ≠ u.samplingRate
      · rw [if_pos hc] at hok
        cases hok
      · rw [if_neg hc] at hok
        rcases hrec : processUtterances p corpus frame_size hop_size sr rest
            (if sr = none then u.samplingRate else acc) with e | l
        · rw [hrec] at hok
          simp [Except.map] at hok
        · rw [hrec] at hok
          simp only [Except.map] at hok
          cases hok
          intro c hcm
          rcases List.mem_cons.mp hcm with hhd | htl
          · subst hhd
            rfl
          · exact processUtterances_srArg rest _ l hrec c htl

/-- With a forced rate, a worker whose identifiers all resolve succeeds on
its whole range: the rate-consistency check is disabled. -/
lemma processUtterances_forced_ok {D : Type} {p : Processor D} {corpus : Corpus}
    {frame_size hop_size : Nat} {r : Int} :
    ∀ (utts : List String) (acc : Int),
      (∀ uid ∈ utts, (lookupUtt corpus uid).isSome) →
      ∃ calls,
        processUtterances p corpus frame_size hop_size (some r) utts acc = .ok calls
          ∧ calls.length = utts.length
  | [], _, _ => ⟨[], by rw [processUtterances], rfl⟩
  | uid :: rest, acc, hall => by
    have h0 := hall uid (List.mem_cons_self _ _)
    rcases hlk : lookupUtt corpus uid with _ | u
    · rw [hlk] at h0
      cases h0
    · have hnot : ¬((some r : Option Int) = none ∧ 0 < acc ∧ acc ≠ u.samplingRate) := by
        rintro ⟨hh, -⟩
        cases hh
      have hnn : ¬((some r : Option Int) = none) := by
        intro hh
        cases hh
      obtain ⟨calls, hc, hlen⟩ :=
        @processUtterances_forced_ok D p corpus frame_size hop_size r rest acc
          (fun v hv => hall v (List.mem_cons_of_mem _ hv))
      rw [processUtterances_cons_some hlk, if_neg hnot, if_neg hnn, hc]
      exact ⟨_, rfl, by simp [hlen]⟩

/-! Collector lemmas. -/

/-- Folding keyed writes with pairwise-distinct keys, not colliding with the
container's existing keys, stacks the records in reverse arrival order. -/
lemma foldl_containerSet_entries {D : Type} :
    ∀ (l : List (String × D)) (c0 : FeatureContainer D),
      (l.map Prod.fst).Nodup →
      (∀ k ∈ l.map Prod.fst, k ∉ c0.entries.map Prod.fst) →
      (l.foldl (fun c r => containerSet c r.1 r.2) c0).entries
        = l.reverse ++ c0.entries
  | [], c0, _, _ => by simp
  | (k, d) :: rest, c0, hnd, hdisj => by
    rw [List.foldl_cons]
    have hset : (containerSet c0 k d).entries = (k, d) :: c0.entries := by
      unfold containerSet
      simp only
      congr 1
      rw [List.filter_eq_self]
      intro e he
      simp only [decide_eq_true_eq]
      intro hek
      exact hdisj k (by simp) (hek ▸ List.mem_map_of_mem Prod.fst he)
    have hnd' : (rest.map Prod.fst).Nodup := by
      simpa using hnd.of_cons
    have hkrest : k ∉ rest.map Prod.fst := by
      have := hnd
      simp only [List.map_cons, List.nodup_cons] at this
      exact this.1
    have hdisj' : ∀ k' ∈ rest.map Prod.fst,
        k' ∉ (containerSet c0 k d).entries.map Prod.fst := by
      intro k' hk'
      rw [hset]
      simp only [List.map_cons, List.mem_cons]
      rintro (hkk | hmem)
      · exact hkrest (hkk ▸ hk')
      · exact hdisj k' (List.mem_cons_of_mem _ hk') hmem
    rw [foldl_containerSet_entries rest (containerSet c0 k d) hnd' hdisj', hset]
    simp

/-- Destructuring a successful sampling-rate derivation with no forced
rate: the identifier list has a head, it resolves, and its rate is the
derived one. -/
lemma deriveSamplingRate_none_ok {corpus : Corpus} {s : Int}
    (hs : deriveSamplingRate corpus none = .ok s) :
    ∃ uid u, (corpus.map Prod.fst).head? = some uid ∧
      lookupUtt corpus uid = some u ∧ u.samplingRate = s := by
  have hs1 : (match (corpus.map Prod.fst).head? with
      | none => (Except.error RunError.indexError : Except RunError Int)
      | some uid =>
        match lookupUtt corpus uid with
        | none => Except.error (RunError.keyError uid)
        | some u => Except.ok u.samplingRate) = Except.ok s := hs
  rcases hh : (corpus.map Prod.fst).head? with _ | uid <;> rw [hh] at hs1
  · cases hs1
  · have hs2 : (match lookupUtt corpus uid with
        | none => (Except.error (RunError.keyError uid) : Except RunError Int)
        | some u => Except.ok u.samplingRate) = Except.ok s := hs1
    rcases hlku : lookupUtt corpus uid with _ | u <;> rw [hlku] at hs2
    · cases hs2
    · exact ⟨uid, u, rfl, hlku, Except.ok.inj hs2⟩

/-! Claim theorems. -/

/-- C1: for every ordered identifier sequence and every worker count
W ≥ 2 the partitioner produces exactly W ranges; range i is the block
of width ⌊N/W⌋ starting at i·⌊N/W⌋ for every i < W−1; the last range
runs from its start to N; the ranges concatenate back to the whole
sequence, hence are contiguous, disjoint and covering (empty ranges
permitted); and ten identifiers with three workers yield ranges of
sizes 3, 3, 4. -/
theorem C1_partition (ids : List String) (W : Nat) (hW : 2 ≤ W) :
    ((List.range W).map (workerSlice ids W)).length = W ∧
    (∀ i, i < W - 1 →
      workerSlice ids W i
        = (ids.drop (i * (ids.length / W))).take (ids.length / W)) ∧
    workerSlice ids W (W - 1) = ids.drop ((W - 1) * (ids.length / W)) ∧
    ((List.range W).map (workerSlice ids W)).flatten = ids ∧
    (ids.length = 10 → W = 3 →
      ((List.range W).map (workerSlice ids W)).map List.length = [3, 3, 4]) := by
  refine ⟨by simp, fun i hi => workerSlice_eq_mid ids W i hi,
    workerSlice_eq_last ids W, slices_join ids W hW, ?_⟩
  intro h10 hW3
  subst hW3
  have k3 : ids.length / 3 = 3 := by rw [h10]
  have r3 : List.range 3 = [0, 1, 2] := by decide
  rw [r3]
  simp only [List.map_cons, List.map_nil]
  rw [workerSlice_eq_mid ids 3 0 (by norm_num),
    workerSlice_eq_mid ids 3 1 (by norm_num), workerSlice_eq_last ids 3]
  simp [List.length_take, List.length_drop, h10, k3]

/-- Witness for C1: the three slices of ten concrete identifiers. -/
theorem C1_partition_witness :
    ((List.range 3).map (workerSlice ids10 3)).flatten = ids10 ∧
    ((List.range 3).map (workerSlice ids10 3)).map List.length = [3, 3, 4] :=
  ⟨(C1_partition ids10 3 (by norm_num)).2.2.2.1,
   (C1_partition ids10 3 (by norm_num)).2.2.2.2 rfl rfl⟩

/-- C4: for every worker count below two, `process_corpus` fails with the
configuration error and its event trace is empty — the output container
is never created and no worker is started or joined. -/
theorem C4_config_error {D : Type} (p : Processor D) (corpus : Corpus)
    (W frame_size hop_size : Nat) (sr : Option Int)
    (arrival : List (String × D)) (hW : W < 2) :
    process_corpus p corpus W frame_size hop_size sr arrival
      = ([], .error .configurationError) := by
  unfold process_corpus
  rw [if_pos hW]

/-- Witness for C4 at one worker. -/
theorem C4_config_error_witness :
    process_corpus procTest corpusT 1 400 160 none []
      = ([], .error .configurationError) :=
  C4_config_error procTest corpusT 1 400 160 none [] (by norm_num)

/-- C10: on an empty corpus with no forced rate and a validated worker
count, `process_corpus` does not return a finalized container: deriving
the final sampling rate indexes the empty identifier list and fails, so
the run ends in the index error with a trace that stops after the spawns
and the container opening — no write, no metadata assignment, no close. -/
theorem C10_empty_corpus {D : Type} (p : Processor D)
    (W frame_size hop_size : Nat) (arrival : List (String × D)) (hW : 2 ≤ W) :
    process_corpus p ([] : Corpus) W frame_size hop_size none arrival
      = ((List.range W).map (fun i => Event.spawn i (workerSlice [] W i))
          ++ [Event.openC], .error .indexError) := by
  unfold process_corpus
  rw [if_neg (by omega)]
  simp [deriveSamplingRate]

/-- Witness for C10 at two workers. -/
theorem C10_empty_corpus_witness :
    process_corpus procTest ([] : Corpus) 2 400 160 none []
      = ((List.range 2).map (fun i => Event.spawn i (workerSlice [] 2 i))
          ++ [Event.openC], .error .indexError) :=
  C10_empty_corpus procTest 2 400 160 [] (by norm_num)

/-- C7: with a forced sampling rate, a worker whose identifiers all
resolve completes its whole range without raising any error — the rate
consistency check is disabled, so no inconsistent-rate error is possible
even when intrinsic rates differ — and every `process_utterance`
invocation receives the forced rate as its sampling-rate argument. -/
theorem C7_forced_rate {D : Type} (p : Processor D) (corpus : Corpus)
    (frame_size hop_size : Nat) (r : Int) (utts : List String)
    (hlk : ∀ uid ∈ utts, (lookupUtt corpus uid).isSome) :
    ∃ calls,
      worker_process_utterances_task p utts corpus frame_size hop_size (some r)
          = .ok calls
        ∧ calls.length = utts.length
        ∧ ∀ c ∈ calls, c.srArg = some r := by
  obtain ⟨calls, hok, hlen⟩ :=
    @processUtterances_forced_ok D p corpus frame_size hop_size r utts (-1) hlk
  exact ⟨calls, hok, hlen,
    fun c hc => processUtterances_srArg utts (-1) calls hok c hc⟩

/-- Witness for C7 on a two-item corpus with differing intrinsic rates. -/
theorem C7_forced_rate_witness :
    ∃ calls,
      worker_process_utterances_task procTest ["a", "b"] corpusMixed 400 160
          (some 22050) = .ok calls
        ∧ calls.length = (["a", "b"] : List String).length
        ∧ ∀ c ∈ calls, c.srArg = some 22050 :=
  C7_forced_rate procTest corpusMixed 400 160 22050 ["a", "b"] (by decide)

/-- C6 counterexample: with no forced rate, a worker passes `None` — not
the item's intrinsic rate 16000 — as the sampling-rate argument of the
`process_utterance` call for that item. -/
theorem C6_sr_argument_counterexample :
    worker_process_utterances_task procTest ["a"] corpusT 400 160 none
        = .ok [WorkerCall.mk "a" none 0]
      ∧ lookupUtt corpusT "a" = some (Utterance.mk "a" "fa" 16000)
      ∧ (none : Option Int) ≠ some 16000 :=
  ⟨by decide, by decide, by decide⟩

/-- C6 amended: the sampling-rate argument of every `process_utterance`
call a worker performs is the literal configured `sr` — the forced rate
when one is configured, and `None` otherwise; the item's intrinsic rate
is never substituted for it. -/
theorem C6_sr_argument {D : Type} (p : Processor D) (corpus : Corpus)
    (frame_size hop_size : Nat) (sr : Option Int) (utts : List String)
    (calls : List (WorkerCall D))
    (hok : worker_process_utterances_task p utts corpus frame_size hop_size sr
      = .ok calls) :
    ∀ c ∈ calls, c.srArg = sr :=
  fun c hc => processUtterances_srArg utts (-1) calls hok c hc

/-- Witness for C6 amended: the single recorded call carries `None`. -/
theorem C6_sr_argument_witness :
    (WorkerCall.mk "a" (none : Option Int) (0 : Nat)).srArg = none :=
  C6_sr_argument procTest corpusT 400 160 none ["a"] [WorkerCall.mk "a" none 0]
    (by decide) (WorkerCall.mk "a" none 0) (List.mem_singleton.mpr rfl)

/-- C9: with no forced rate, one worker step compares the item's rate only
against the most recently threaded rate, errors only when that rate is
strictly positive and differs, and overwrites it with the item's rate
(the thread starts at −1); consequently, when the item preceding a rate
change has a non-positive intrinsic rate, the differing subsequent item
raises no error and processing continues silently. -/
theorem C9_latest_rate_only {D : Type} (p : Processor D) (corpus : Corpus)
    (frame_size hop_size : Nat) :
    (∀ (uid : String) (rest : List String) (acc : Int) (u : Utterance),
      lookupUtt corpus uid = some u →
      processUtterances p corpus frame_size hop_size none (uid :: rest) acc =
        if 0 < acc ∧ acc ≠ u.samplingRate then
          .error (.inconsistentRate u.fileIdx)
        else
          (processUtterances p corpus frame_size hop_size none rest
            u.samplingRate).map
            (fun calls =>
              WorkerCall.mk u.idx none
                (p.process_utterance u frame_size hop_size none corpus)
                :: calls)) ∧
    (∀ (a b : String) (rest : List String) (ua ub : Utterance),
      lookupUtt corpus a = some ua → lookupUtt corpus b = some ub →
      ua.samplingRate ≤ 0 → ub.samplingRate ≠ ua.samplingRate →
      worker_process_utterances_task p (a :: b :: rest) corpus
          frame_size hop_size none =
        (processUtterances p corpus frame_size hop_size none rest
          ub.samplingRate).map
          (fun calls =>
            WorkerCall.mk ua.idx none
              (p.process_utterance ua frame_size hop_size none corpus) ::
            WorkerCall.mk ub.idx none
              (p.process_utterance ub frame_size hop_size none corpus)
                :: calls)) := by
  constructor
  · intro uid rest acc u hlk
    rw [processUtterances_cons_some hlk]
    by_cases hc : 0 < acc ∧ acc ≠ u.samplingRate
    · rw [if_pos ⟨rfl, hc.1, hc.2⟩, if_pos hc]
    · rw [if_neg (fun hh => hc ⟨hh.2.1, hh.2.2⟩), if_neg hc, if_pos rfl]
  · intro a b rest ua ub hla hlb hle hneq
    unfold worker_process_utterances_task
    rw [processUtterances_cons_some hla,
      if_neg (by rintro ⟨-, hp, -⟩; omega), if_pos rfl,
      processUtterances_cons_some hlb,
      if_neg (by rintro ⟨-, hp, -⟩; omega), if_pos rfl]
    cases processUtterances p corpus frame_size hop_size none rest
      ub.samplingRate <;> rfl

/-- Witness for C9: a zero-rate item followed by a rate-5 item passes the
check and processing continues. -/
theorem C9_latest_rate_only_witness :
    worker_process_utterances_task procTest ["a", "b"] corpusZero 400 160 none =
      (processUtterances procTest corpusZero 400 160 none [] (5 : Int)).map
        (fun calls =>
          WorkerCall.mk "a" none 0 :: WorkerCall.mk "b" none 0 :: calls) :=
  (C9_latest_rate_only procTest corpusZero 400 160).2 "a" "b" []
    (Utterance.mk "a" "fa" 0) (Utterance.mk "b" "fb" 5)
    (by decide) (by decide) (by decide) (by decide)

/-- C2: after a successful run in which every worker succeeded on its
slice and the queue delivered a permutation of the workers' records, the
workers collectively emitted exactly one record per identifier (in slice
order), the collector wrote exactly N = |corpus| records, and the
container holds exactly one entry per input identifier — its keys are a
permutation of the identifier list and each identifier counts once. -/
theorem C2_container_complete {D : Type} (p : Processor D) (corpus : Corpus)
    (W frame_size hop_size : Nat) (sr : Option Int)
    (arrival outs : List (String × D)) (c : FeatureContainer D)
    (hfaith : ∀ pr ∈ corpus, (pr.2).idx = pr.1)
    (hnodup : (corpus.map Prod.fst).Nodup)
    (hworkers : workerOutputsAll p corpus W frame_size hop_size sr = .ok outs)
    (harr : arrival.Perm outs)
    (hok : (process_corpus p corpus W frame_size hop_size sr arrival).2 = .ok c) :
    outs.map Prod.fst = corpus.map Prod.fst ∧
    c.entries.length = corpus.length ∧
    (c.entries.map Prod.fst).Perm (corpus.map Prod.fst) ∧
    ∀ uid ∈ corpus.map Prod.fst, (c.entries.map Prod.fst).count uid = 1 := by
  obtain ⟨hW, hlen, s, hs, heq⟩ := process_corpus_ok_eq hok
  have houts : outs.map Prod.fst = corpus.map Prod.fst := by
    have hh := workerOutputsOn_map_fst hfaith _ outs hworkers
    rw [hh, slices_join _ _ hW]
  have harrkeys : (arrival.map Prod.fst).Perm (corpus.map Prod.fst) := by
    rw [← houts]
    exact harr.map Prod.fst
  have harrlen : arrival.length = corpus.length := by
    have h1 := harr.length_eq
    have h2 := congrArg List.length houts
    simp only [List.length_map] at h2
    omega
  have htake : arrival.take corpus.length = arrival :=
    List.take_of_length_le (by omega)
  have hand : (arrival.map Prod.fst).Nodup := (harrkeys.symm).nodup hnodup
  have hceq : c = FeatureContainer.mk
      ((arrival.take corpus.length).foldl
        (fun c r => containerSet c r.1 r.2) (emptyContainer D)).entries
      (some (p.frame_transform frame_size hop_size).1)
      (some (p.frame_transform frame_size hop_size).2)
      (some (pyOr sr s)) := by
    have hh := hok
    rw [heq] at hh
    exact (Except.ok.inj hh).symm
  have hentries : c.entries = arrival.reverse := by
    rw [hceq]
    simp only
    rw [htake,
      foldl_containerSet_entries arrival (emptyContainer D) hand
        (by intro k hk; simp [emptyContainer])]
    simp [emptyContainer]
  have hperm : (c.entries.map Prod.fst).Perm (corpus.map Prod.fst) := by
    rw [hentries, List.map_reverse]
    exact ((arrival.map Prod.fst).reverse_perm).trans harrkeys
  refine ⟨houts, ?_, hperm, ?_⟩
  · rw [hentries, List.length_reverse, harrlen]
  · intro uid hm
    rw [hperm.count_eq uid]
    exact List.count_eq_one_of_mem hnodup hm

/-- Witness for C2: three identifiers, two workers, shuffled arrival. -/
theorem C2_container_complete_witness :
    ([("a", 0), ("b", 0), ("c", 0)] : List (String × Nat)).map Prod.fst
        = corpusT.map Prod.fst ∧
    (FeatureContainer.mk [("c", (0 : Nat)), ("a", 0), ("b", 0)]
        (some 401) (some 162) (some 16000)).entries.length = corpusT.length ∧
    ((FeatureContainer.mk [("c", (0 : Nat)), ("a", 0), ("b", 0)]
        (some 401) (some 162) (some 16000)).entries.map Prod.fst).Perm
      (corpusT.map Prod.fst) ∧
    ∀ uid ∈ corpusT.map Prod.fst,
      ((FeatureContainer.mk [("c", (0 : Nat)), ("a", 0), ("b", 0)]
        (some 401) (some 162) (some 16000)).entries.map Prod.fst).count uid = 1 :=
  C2_container_complete procTest corpusT 2 400 160 none
    [("b", 0), ("a", 0), ("c", 0)] [("a", 0), ("b", 0), ("c", 0)]
    (FeatureContainer.mk [("c", 0), ("a", 0), ("b", 0)]
      (some 401) (some 162) (some 16000))
    (by decide) (by decide) (by decide) (by decide) (by decide)

/-- C5: after a successful run the container's frame and hop size are the
outputs of the processor's `frame_transform` on the configured sizes (not
the raw inputs), and its sampling rate is the forced rate when one is
configured, else the intrinsic rate of the first item of the original
identifier sequence; in particular, for a corpus uniform at rate `r` with
no forced rate, the final sampling rate is `r`. -/
theorem C5_final_metadata {D : Type} (p : Processor D) (corpus : Corpus)
    (W frame_size hop_size : Nat) (sr : Option Int)
    (arrival : List (String × D)) (c : FeatureContainer D)
    (hok : (process_corpus p corpus W frame_size hop_size sr arrival).2 = .ok c) :
    c.frame_size = some (p.frame_transform frame_size hop_size).1 ∧
    c.hop_size = some (p.frame_transform frame_size hop_size).2 ∧
    (∀ s0, sr = some s0 → c.sampling_rate = some s0) ∧
    (sr = none → ∃ uid u, (corpus.map Prod.fst).head? = some uid ∧
      lookupUtt corpus uid = some u ∧ c.sampling_rate = some u.samplingRate) ∧
    (∀ r : Int, sr = none → (∀ pr ∈ corpus, (pr.2).samplingRate = r) →
      c.sampling_rate = some r) := by
  obtain ⟨hW, hlen, s, hs, heq⟩ := process_corpus_ok_eq hok
  have hceq : c = FeatureContainer.mk
      ((arrival.take corpus.length).foldl
        (fun c r => containerSet c r.1 r.2) (emptyContainer D)).entries
      (some (p.frame_transform frame_size hop_size).1)
      (some (p.frame_transform frame_size hop_size).2)
      (some (pyOr sr s)) := by
    have hh := hok
    rw [heq] at hh
    exact (Except.ok.inj hh).symm
  have hfs : c.frame_size = some (p.frame_transform frame_size hop_size).1 := by
    rw [hceq]
  have hhs : c.hop_size = some (p.frame_transform frame_size hop_size).2 := by
    rw [hceq]
  have hsrf : c.sampling_rate = some (pyOr sr s) := by
    rw [hceq]
  refine ⟨hfs, hhs, ?_, ?_, ?_⟩
  · intro s0 hsr0
    subst hsr0
    have hss : (Except.ok s0 : Except RunError Int) = .ok s := hs
    have hss2 : s0 = s := Except.ok.inj hss
    rw [hsrf, ← hss2]
    simp only [pyOr]
    by_cases h0 : s0 = 0
    · rw [if_pos h0, h0]
    · rw [if_neg h0]
  · intro hsr0
    subst hsr0
    obtain ⟨uid, u, hh, hlku, hsu⟩ := deriveSamplingRate_none_ok hs
    exact ⟨uid, u, hh, hlku, by rw [hsrf]; simp only [pyOr]; rw [hsu]⟩
  · intro r hsr0 hall
    subst hsr0
    obtain ⟨uid, u, hh, hlku, hsu⟩ := deriveSamplingRate_none_ok hs
    have hur : u.samplingRate = r := hall (uid, u) (lookupUtt_mem hlku)
    rw [hsrf]
    simp only [pyOr]
    rw [← hsu, hur]

/-- Witness for C5: uniform 16000-rate corpus, no forced rate. -/
theorem C5_final_metadata_witness :
    (FeatureContainer.mk [("c", (0 : Nat)), ("a", 0), ("b", 0)]
        (some 401) (some 162) (some 16000)).sampling_rate = some 16000 :=
  (C5_final_metadata procTest corpusT 2 400 160 none
    [("b", 0), ("a", 0), ("c", 0)]
    (FeatureContainer.mk [("c", 0), ("a", 0), ("b", 0)]
      (some 401) (some 162) (some 16000))
    (by decide)).2.2.2.2 16000 rfl (by decide)

/-- C8: in every successful run the event trace is exactly the worker
spawns, the container opening, one write per collected record (N of
them), the single metadata assignment, the close, and only then the
worker joins — so no write follows the close, the metadata is assigned
only after all N writes, and the container is closed before the
orchestrator joins any worker. -/
theorem C8_lifecycle {D : Type} (p : Processor D) (corpus : Corpus)
    (W frame_size hop_size : Nat) (sr : Option Int)
    (arrival : List (String × D)) (c : FeatureContainer D)
    (hok : (process_corpus p corpus W frame_size hop_size sr arrival).2 = .ok c) :
    ∃ s, deriveSamplingRate corpus sr = .ok s ∧
      (process_corpus p corpus W frame_size hop_size sr arrival).1 =
        (List.range W).map
          (fun i => Event.spawn i (workerSlice (corpus.map Prod.fst) W i))
        ++ [Event.openC]
        ++ (arrival.take corpus.length).map (fun r => Event.write r.1 r.2)
        ++ [Event.setMeta (p.frame_transform frame_size hop_size).1
              (p.frame_transform frame_size hop_size).2 (pyOr sr s),
            Event.closeC]
        ++ (List.range W).map (fun i => Event.join i) ∧
      ((arrival.take corpus.length).map (fun r => Event.write r.1 r.2)).length
        = corpus.length := by
  obtain ⟨hW, hlen, s, hs, heq⟩ := process_corpus_ok_eq hok
  refine ⟨s, hs, ?_, ?_⟩
  · rw [heq]
  · simp only [List.length_map, List.length_take]
    omega

/-- Witness for C8: the complete trace of one successful concrete run. -/
theorem C8_lifecycle_witness :
    ∃ s, deriveSamplingRate corpusT none = .ok s ∧
      (process_corpus procTest corpusT 2 400 160 none
        [("b", (0 : Nat)), ("a", 0), ("c", 0)]).1 =
        (List.range 2).map
          (fun i => Event.spawn i (workerSlice (corpusT.map Prod.fst) 2 i))
        ++ [Event.openC]
        ++ (([("b", (0 : Nat)), ("a", 0), ("c", 0)]).take corpusT.length).map
            (fun r => Event.write r.1 r.2)
        ++ [Event.setMeta (procTest.frame_transform 400 160).1
              (procTest.frame_transform 400 160).2 (pyOr none s),
            Event.closeC]
        ++ (List.range 2).map (fun i => Event.join i) ∧
      ((([("b", (0 : Nat)), ("a", 0), ("c", 0)]).take corpusT.length).map
        (fun r => Event.write r.1 r.2)).length = corpusT.length :=
  C8_lifecycle procTest corpusT 2 400 160 none
    [("b", 0), ("a", 0), ("c", 0)]
    (FeatureContainer.mk [("c", 0), ("a", 0), ("b", 0)]
      (some 401) (some 162) (some 16000))
    (by decide)

/-- C3 counterexample: with no forced rate, a range whose first item
reports intrinsic rate 0 and whose second reports rate 5 completes
without any error, although the second item's rate differs from the
baseline set by the first item — the check is skipped because the
recorded rate is not strictly positive. -/
theorem C3_rate_check_counterexample :
    worker_process_utterances_task procTest ["a", "b"] corpusZero 400 160 none
        = .ok [WorkerCall.mk "a" none 0, WorkerCall.mk "b" none 0]
      ∧ lookupUtt corpusZero "a" = some (Utterance.mk "a" "fa" 0)
      ∧ lookupUtt corpusZero "b" = some (Utterance.mk "b" "fb" 5)
      ∧ (5 : Int) ≠ 0 :=
  ⟨by decide, by decide, by decide, by decide⟩

/-- C3 amended: with no forced rate, (a) a worker whose range reports one
uniform intrinsic rate processes all items without error; and (b) when a
non-empty block of items of one strictly positive rate `r` is followed by
the first item whose intrinsic rate differs, the worker fails with the
inconsistent-rate error identifying the offending item by its file —
positivity of the preceding rate is required because the check is skipped
whenever the previously recorded rate is non-positive. -/
theorem C3_rate_check {D : Type} (p : Processor D) (corpus : Corpus)
    (frame_size hop_size : Nat) :
    (∀ (utts : List String) (r : Int),
      (∀ uid ∈ utts, (lookupUtt corpus uid).map Utterance.samplingRate = some r) →
      ∃ calls,
        worker_process_utterances_task p utts corpus frame_size hop_size none
          = .ok calls) ∧
    (∀ (pre : List String) (bad : String) (rest : List String) (r : Int)
        (ubad : Utterance),
      pre ≠ [] → 0 < r →
      (∀ uid ∈ pre, (lookupUtt corpus uid).map Utterance.samplingRate = some r) →
      lookupUtt corpus bad = some ubad → ubad.samplingRate ≠ r →
      worker_process_utterances_task p (pre ++ bad :: rest) corpus
          frame_size hop_size none
        = .error (.inconsistentRate ubad.fileIdx)) := by
  constructor
  · intro utts r hall
    exact processUtterances_uniform_ok utts (-1) hall (Or.inl (by norm_num))
  · intro pre bad rest r ubad hpre hr hall hbadlk hne
    unfold worker_process_utterances_task
    cases pre with
    | nil => exact absurd rfl hpre
    | cons u0 pre =>
      have h0 := hall u0 (List.mem_cons_self _ _)
      rcases hlk : lookupUtt corpus u0 with _ | uu
      · rw [hlk] at h0
        cases h0
      · rw [hlk] at h0
        simp only [Option.map_some', Option.some.injEq] at h0
        rw [List.cons_append, processUtterances_cons_some hlk,
          if_neg (by rintro ⟨-, hp, -⟩; omega), if_pos rfl, h0,
          processUtterances_diverge hbadlk hr hne pre rest r
            (fun v hv => hall v (List.mem_cons_of_mem _ hv)) rfl]
        rfl

/-- Witness for C3 amended: a rate-8000 item followed by a rate-44100
item fails naming the second item's file. -/
theorem C3_rate_check_witness :
    worker_process_utterances_task procTest ["a", "b"] corpusMixed 400 160 none
      = .error (.inconsistentRate "fb") :=
  (C3_rate_check procTest corpusMixed 400 160).2 ["a"] "b" [] 8000
    (Utterance.mk "b" "fb" 44100) (by decide) (by decide) (by decide)
    (by decide) (by decide)

end Audiomate
